import Mathlib

/-!
Verification of the `tears` cleanup-action registry.

The program registers heterogeneous cleanup actions on a `Cleaner` and runs
them in reverse registration order, bounding the wait for each action by a
shared timeout and aggregating failures into one outcome.

The embedding models a cleanup function semantically by its observable
behaviour in a run: the time until it signals completion (`none` when it
never signals, i.e. it blocks forever) and the error value it returns
(`none` for a nil error).  Time is measured in abstract units (the package
default timeout, 15 seconds, is the number 15 in these units).
-/

/-- Semantic model of a Go `cleanupFn` (`func() error`): the time it takes
until it signals completion (`none` = blocks forever) and the error it
returns on completion (`none` = nil error). -/
structure CleanupFn where
  duration : Option Nat
  result : Option String
deriving DecidableEq

/-- Model of `type Cleaner []cleanupFn`.  Entries are `Option` because the
Go slice may hold nil function values, which `Down` skips. -/
abbrev Cleaner := List (Option CleanupFn)

/-- Model of `var Timeout = 15 * time.Second`: the package-level default
timeout after which a cleanup function is considered stuck, in seconds. -/
def Timeout : Nat := 15

/-- Semantic model of a quit-channel (`chan<- bool`): the time until the
single send `ch <- true` is received (`none` = the send blocks forever). -/
structure QuitChan where
  sendTime : Option Nat
deriving DecidableEq

/-- Semantic model of a `context.CancelFunc` (`func()`): the time it takes
to return.  It returns no error. -/
structure CancelFn where
  duration : Option Nat
deriving DecidableEq

/-- The closure built by `AddCancelFunc`: calls `fn()` and returns nil. -/
def wrapCancelFunc (fn : CancelFn) : CleanupFn :=
  { duration := fn.duration, result := none }

/-- The closure built by `AddQuitChan`: sends `true` on the channel and
returns nil. -/
def wrapQuitChan (ch : QuitChan) : CleanupFn :=
  { duration := ch.sendTime, result := none }

/-- `AddSyncFunc` appends the cleanup function to the stack. -/
def AddSyncFunc (c : Cleaner) (fn : CleanupFn) : Cleaner :=
  c ++ [some fn]

/-- `AddCancelFunc` appends the wrapped cancel function to the stack. -/
def AddCancelFunc (c : Cleaner) (fn : CancelFn) : Cleaner :=
  c ++ [some (wrapCancelFunc fn)]

/-- `AddQuitChan` appends the wrapped quit-channel send to the stack. -/
def AddQuitChan (c : Cleaner) (ch : QuitChan) : Cleaner :=
  c ++ [some (wrapQuitChan ch)]

/-- The dynamic shapes a value passed to `Tear` can have.  The type switch
in `Tear` recognises `func() error`, the named type `cleanupFn`,
`chan<- bool` and `context.CancelFunc`; every other dynamic type reaches
the `default` branch.  `unsupported` carries the `%T` type name. -/
inductive TearArg where
  | syncFunc (fn : CleanupFn)
  | namedCleanup (fn : CleanupFn)
  | quitChan (ch : QuitChan)
  | cancelFunc (fn : CancelFn)
  | unsupported (typeName : String)
deriving DecidableEq

/-- Model of `Cleaner.Tear`: the type switch dispatching to the `Add*`
helpers.  The second component is the panic message of the `default`
branch (`none` = normal return); a panic unwinds before anything is
appended, so the cleaner component is returned unchanged in that case. -/
def Tear (c : Cleaner) (v : TearArg) : Cleaner × Option String :=
  match v with
  | .syncFunc fn => (AddSyncFunc c fn, none)
  | .namedCleanup fn => (AddSyncFunc c fn, none)
  | .quitChan ch => (AddQuitChan c ch, none)
  | .cancelFunc fn => (AddCancelFunc c fn, none)
  | .unsupported t => (c, some ("unsupported type " ++ t))

/-- Outcome of the `select` in `Down` for one cleanup function: if the
function signals completion within the timeout `t`, its own error value
is recorded; otherwise the loop records the error `"timeout"` and moves
on. -/
def runOne (t : Nat) (fn : CleanupFn) : Option String :=
  match fn.duration with
  | none => some "timeout"
  | some d => if d ≤ t then fn.result else some "timeout"

/-- Time the driving loop spends waiting on one cleanup function: the
`select` returns at the earlier of completion and the timeout. -/
def waitOne (t : Nat) (fn : CleanupFn) : Nat :=
  match fn.duration with
  | none => t
  | some d => min d t

/-- Observable outcome of the loop in `Down`: the registration indices of
the invoked functions in invocation order, the recorded errors in the
order they are put into the `errs` channel, and the total time the
driving loop spent waiting. -/
structure RunOut where
  trace : List Nat
  errs : List String
  time : Nat
deriving DecidableEq

/-- The loop of `Down` over the (already reversed) indexed action list:
nil entries are skipped; each other entry is invoked, its recorded error
(if any) appended, and its bounded wait added to the total. -/
def downLoop (t : Nat) : List (Nat × Option CleanupFn) → RunOut
  | [] => { trace := [], errs := [], time := 0 }
  | (_, none) :: rest => downLoop t rest
  | (i, some fn) :: rest =>
      { trace := i :: (downLoop t rest).trace,
        errs :=
          match runOne t fn with
          | some e => e :: (downLoop t rest).errs
          | none => (downLoop t rest).errs,
        time := waitOne t fn + (downLoop t rest).time }

/-- One full run of the loop in `Down` with timeout `t`: the code iterates
`i` from `len(*c) - 1` down to `0`, i.e. over the reversed enumeration of
the stack. -/
def DownFull (t : Nat) (c : Cleaner) : RunOut :=
  downLoop t c.enum.reverse

/-- Structural model of the value `Down` returns: nil, or the aggregated
error `"%d errors encountered, first error: %s"` carrying the number of
recorded errors and the first recorded error. -/
inductive DownResult where
  | ok
  | failed (count : Nat) (first : String)
deriving DecidableEq

/-- Model of `Cleaner.Down` running with timeout `t`: run the loop, then
return nil when no error was recorded and otherwise the aggregate of the
count and the first recorded error. -/
def Down (t : Nat) (c : Cleaner) : DownResult :=
  match (DownFull t c).errs with
  | [] => DownResult.ok
  | e :: es => DownResult.failed (es.length + 1) e

/-- State-passing form of `Down`: the Go code only ever reads `(*c)[i]`
and never assigns to `*c` or appends to it, so the cleaner component of
the state is the input list unchanged. -/
def DownSt (t : Nat) (c : Cleaner) : Cleaner × DownResult :=
  (c, Down t c)

/-- The registered cleanup functions in execution order (reverse
registration order, nil entries skipped). -/
def execList (c : Cleaner) : List CleanupFn :=
  c.reverse.filterMap id

/-- The per-action failures of a run in execution order: each executed
function contributes its `runOne` outcome when that is an error. -/
def execFailures (t : Nat) (c : Cleaner) : List String :=
  (execList c).filterMap (runOne t)

example : DownFull 15 [some ⟨some 0, none⟩, some ⟨some 0, some "boom"⟩] =
    { trace := [1, 0], errs := ["boom"], time := 0 } := by decide

example : Down 15 [some ⟨some 0, none⟩, some ⟨some 0, some "boom"⟩] =
    DownResult.failed 1 "boom" := by decide

example : Down 2 [some ⟨none, none⟩, some ⟨some 1, none⟩] =
    DownResult.failed 1 "timeout" := by decide

lemma waitOne_le (t : Nat) (fn : CleanupFn) : waitOne t fn ≤ t := by
  cases h : fn.duration <;> simp [waitOne, h]

lemma downLoop_errs (t : Nat) : ∀ l : List (Nat × Option CleanupFn),
    (downLoop t l).errs = ((l.map Prod.snd).filterMap id).filterMap (runOne t)
  | [] => rfl
  | (i, none) :: rest => by
      simp [downLoop, List.filterMap_cons, downLoop_errs t rest]
  | (i, some fn) :: rest => by
      simp only [downLoop, List.map_cons, List.filterMap_cons, id]
      cases h : runOne t fn <;> simp [h, downLoop_errs t rest]

lemma downLoop_trace_all (t : Nat) : ∀ l : List (Nat × Option CleanupFn),
    (∀ p ∈ l, p.2.isSome) → (downLoop t l).trace = l.map Prod.fst
  | [], _ => rfl
  | (i, none) :: rest, h => by
      have := h (i, none) (List.mem_cons_self _ _)
      simp at this
  | (i, some fn) :: rest, h => by
      simp [downLoop,
        downLoop_trace_all t rest (fun p hp => h p (List.mem_cons_of_mem _ hp))]

lemma downLoop_time_le (t : Nat) : ∀ l : List (Nat × Option CleanupFn),
    (downLoop t l).time ≤ l.length * t
  | [] => by simp [downLoop]
  | (i, none) :: rest => by
      simp only [downLoop, List.length_cons, Nat.succ_mul]
      exact le_trans (downLoop_time_le t rest) (Nat.le_add_right _ t)
  | (i, some fn) :: rest => by
      simp only [downLoop, List.length_cons, Nat.succ_mul]
      have h1 := downLoop_time_le t rest
      have h2 := waitOne_le t fn
      omega

lemma snd_mem_of_mem_enumFrom {α : Type} :
    ∀ (l : List α) (n : Nat) (p : Nat × α), p ∈ List.enumFrom n l → p.2 ∈ l
  | [], _, p, h => by simp [List.enumFrom] at h
  | a :: as, n, p, h => by
      rw [List.enumFrom] at h
      rcases List.mem_cons.mp h with h1 | h2
      · simp [h1]
      · exact List.mem_cons_of_mem _ (snd_mem_of_mem_enumFrom as (n + 1) p h2)

lemma mem_enum_snd {α : Type} {c : List α} {p : Nat × α} (h : p ∈ c.enum) :
    p.2 ∈ c :=
  snd_mem_of_mem_enumFrom c 0 p (by simpa [List.enum] using h)

lemma downFull_errs (t : Nat) (c : Cleaner) :
    (DownFull t c).errs = execFailures t c := by
  rw [DownFull, downLoop_errs, List.map_reverse, List.enum_map_snd]
  rfl

lemma downFull_trace (t : Nat) (c : Cleaner) (h : ∀ x ∈ c, x.isSome) :
    (DownFull t c).trace = (List.range c.length).reverse := by
  rw [DownFull, downLoop_trace_all, List.map_reverse, List.enum_map_fst]
  intro p hp
  exact h p.2 (mem_enum_snd (List.mem_reverse.mp hp))

lemma downFull_time_le (t : Nat) (c : Cleaner) :
    (DownFull t c).time ≤ c.length * t := by
  have := downLoop_time_le t c.enum.reverse
  simpa [List.length_reverse, List.enum_length] using this

lemma down_eq (t : Nat) (c : Cleaner) :
    Down t c =
      match execFailures t c with
      | [] => DownResult.ok
      | e :: es => DownResult.failed (es.length + 1) e := by
  simp only [Down, downFull_errs]

lemma mem_execList (c : Cleaner) {j : Nat} {fn : CleanupFn}
    (hj : c.get? j = some (some fn)) : fn ∈ execList c := by
  rw [execList]
  exact List.mem_filterMap.mpr
    ⟨some fn, List.mem_reverse.mpr (List.get?_mem hj), rfl⟩

lemma mem_execFailures (t : Nat) (c : Cleaner) {j : Nat} {fn : CleanupFn}
    {e : String} (hj : c.get? j = some (some fn)) (he : runOne t fn = some e) :
    e ∈ execFailures t c :=
  List.mem_filterMap.mpr ⟨fn, mem_execList c hj, he⟩

lemma runOne_of_result_none (t : Nat) (fn : CleanupFn) (h : fn.result = none) :
    runOne t fn = none ∨ runOne t fn = some "timeout" := by
  unfold runOne
  cases hd : fn.duration with
  | none => right; rfl
  | some d =>
      by_cases hle : d ≤ t
      · left; simp [hle, h]
      · right; simp [hle]

lemma runOne_of_duration_none (t : Nat) (fn : CleanupFn)
    (h : fn.duration = none) : runOne t fn = some "timeout" := by
  unfold runOne
  rw [h]

/-- Claim C1: for every sequence of registered actions (all with the
default priority, the only priority this version has), `Down` invokes the
cleanup functions in strictly reverse registration order: the trace of
invoked registration indices is `N-1, N-2, …, 0`. -/
theorem tears_down_reverse_order (t : Nat) (c : Cleaner)
    (h : ∀ x ∈ c, x.isSome) :
    (DownFull t c).trace = (List.range c.length).reverse :=
  downFull_trace t c h

theorem tears_down_reverse_order_witness :
    (∀ x ∈ ([some ⟨some 0, none⟩, some ⟨some 0, none⟩,
      some ⟨some 0, none⟩] : Cleaner), x.isSome) ∧
    (DownFull 15 [some ⟨some 0, none⟩, some ⟨some 0, none⟩,
      some ⟨some 0, none⟩]).trace = (List.range 3).reverse :=
  ⟨by decide, tears_down_reverse_order 15
    [some ⟨some 0, none⟩, some ⟨some 0, none⟩, some ⟨some 0, none⟩]
    (by decide)⟩

/-- Claim C2: if one registered action returns an error during `Down`,
every registered action is still invoked exactly once in that run (the
trace counts each registration index once), and `Down` returns a failure
outcome instead of stopping at the failing action. -/
theorem tears_failure_isolation (t : Nat) (c : Cleaner) (j d : Nat)
    (fn : CleanupFn) (msg : String)
    (hall : ∀ x ∈ c, x.isSome)
    (hj : c.get? j = some (some fn))
    (hd : fn.duration = some d) (hdt : d ≤ t) (hr : fn.result = some msg) :
    (∀ i, i < c.length → List.count i (DownFull t c).trace = 1) ∧
    ∃ n e, Down t c = DownResult.failed n e := by
  constructor
  · intro i hi
    rw [downFull_trace t c hall, List.count_reverse]
    exact List.count_eq_one_of_mem (List.nodup_range _) (List.mem_range.mpr hi)
  · have hrun : runOne t fn = some msg := by
      unfold runOne
      rw [hd]
      simp [hdt, hr]
    have hmem : msg ∈ execFailures t c := mem_execFailures t c hj hrun
    rcases hex : execFailures t c with _ | ⟨e, es⟩
    · rw [hex] at hmem
      simp at hmem
    · refine ⟨es.length + 1, e, ?_⟩
      simp only [down_eq, hex]

theorem tears_failure_isolation_witness :
    (∀ i, i < 2 → List.count i (DownFull 5 [some ⟨some 0, none⟩,
      some ⟨some 1, some "disk full"⟩]).trace = 1) ∧
    ∃ n e, Down 5 [some ⟨some 0, none⟩, some ⟨some 1, some "disk full"⟩] =
      DownResult.failed n e :=
  tears_failure_isolation 5
    [some ⟨some 0, none⟩, some ⟨some 1, some "disk full"⟩]
    1 1 ⟨some 1, some "disk full"⟩ "disk full"
    (by decide) rfl rfl (by decide) rfl

/-- Claim C3: if a registered action never signals completion within the
timeout `t`, the run records the distinct `"timeout"` failure for it,
still invokes every registered action (full reverse trace), the total
wait of the run is bounded by `length * t` with the same shared timeout
`t` bounding every action uniformly (so `Down` never waits unboundedly),
and the stuck action is waited on for exactly `t`; the package default of
the shared duration is 15 seconds, caller-overridable via the `Timeout`
variable read as the parameter `t`. -/
theorem tears_timeout_bound (t : Nat) (c : Cleaner) (j : Nat)
    (fn : CleanupFn)
    (hall : ∀ x ∈ c, x.isSome)
    (hj : c.get? j = some (some fn))
    (hstuck : ∀ d, fn.duration = some d → t < d) :
    "timeout" ∈ (DownFull t c).errs ∧
    (DownFull t c).trace = (List.range c.length).reverse ∧
    (DownFull t c).time ≤ c.length * t ∧
    waitOne t fn = t ∧
    Timeout = 15 := by
  have hrun : runOne t fn = some "timeout" := by
    unfold runOne
    cases h : fn.duration with
    | none => rfl
    | some d =>
        have hlt := hstuck d h
        simp [Nat.not_le.mpr hlt]
  have hwait : waitOne t fn = t := by
    unfold waitOne
    cases h : fn.duration with
    | none => rfl
    | some d =>
        have hlt := hstuck d h
        simpa using min_eq_right (Nat.le_of_lt hlt)
  refine ⟨?_, downFull_trace t c hall, downFull_time_le t c, hwait, rfl⟩
  rw [downFull_errs]
  exact mem_execFailures t c hj hrun

theorem tears_timeout_bound_witness :
    "timeout" ∈ (DownFull 2 [some ⟨none, none⟩, some ⟨some 1, none⟩]).errs ∧
    (DownFull 2 [some ⟨none, none⟩, some ⟨some 1, none⟩]).trace =
      (List.range 2).reverse ∧
    (DownFull 2 [some ⟨none, none⟩, some ⟨some 1, none⟩]).time ≤ 2 * 2 ∧
    waitOne 2 ⟨none, none⟩ = 2 ∧
    Timeout = 15 :=
  tears_timeout_bound 2 [some ⟨none, none⟩, some ⟨some 1, none⟩] 0
    ⟨none, none⟩ (by decide) rfl (fun d h => nomatch h)

/-- Claim C4: calling `Down` on a `Cleaner` with zero registered actions
returns success (nil error) without invoking anything. -/
theorem tears_down_empty (t : Nat) :
    Down t ([] : Cleaner) = DownResult.ok ∧
    (DownFull t ([] : Cleaner)).trace = [] :=
  ⟨rfl, rfl⟩

/-- Claim C5: `Down` returns success exactly when no per-action failure or
timeout was recorded during the run; otherwise it returns the aggregated
error carrying the total count of recorded failures and the first
recorded failure detail (the first element of the failures in execution
order). -/
theorem tears_down_aggregation (t : Nat) (c : Cleaner) :
    (Down t c = DownResult.ok ↔ execFailures t c = []) ∧
    ∀ e es, execFailures t c = e :: es →
      Down t c = DownResult.failed (es.length + 1) e := by
  constructor
  · rw [down_eq]
    rcases hex : execFailures t c with _ | ⟨e, es⟩
    · simp
    · simp
  · intro e es hex
    simp only [down_eq, hex]

theorem tears_down_aggregation_witness :
    Down 1 [some ⟨some 0, some "boom"⟩] = DownResult.failed 1 "boom" :=
  (tears_down_aggregation 1 [some ⟨some 0, some "boom"⟩]).2 "boom" []
    (by decide)

/-- Claim C6: calling `Tear` with a value of an unrecognized dynamic type
panics (the default branch of the type switch) and adds nothing to the
action stack: the registered list after the failed call equals the list
before it. -/
theorem tears_tear_unsupported (c : Cleaner) (tn : String) :
    (Tear c (TearArg.unsupported tn)).1 = c ∧
    (Tear c (TearArg.unsupported tn)).2 = some ("unsupported type " ++ tn) :=
  ⟨rfl, rfl⟩

/-- Claim C9: `Down` does not modify the registered action list: the
cleaner state after a run equals the state before it, so a repeated call
re-executes every action with the same trace and outcome. -/
theorem tears_down_frame (t : Nat) (c : Cleaner) :
    (DownSt t c).1 = c ∧
    DownFull t (DownSt t c).1 = DownFull t c ∧
    Down t (DownSt t c).1 = Down t c :=
  ⟨rfl, rfl, rfl⟩

/-- Claim C10: an action registered via a quit-channel or a
`context.CancelFunc` is wrapped into a closure that always returns a nil
error, so its recorded outcome in a run is never an action failure — it
is either no error at all or the `"timeout"` failure (e.g. when the
channel send blocks past the timeout, here when it blocks forever). -/
theorem tears_quit_cancel_nil (t : Nat) (ch : QuitChan) (fn : CancelFn) :
    (wrapQuitChan ch).result = none ∧
    (wrapCancelFunc fn).result = none ∧
    (runOne t (wrapQuitChan ch) = none ∨
      runOne t (wrapQuitChan ch) = some "timeout") ∧
    (runOne t (wrapCancelFunc fn) = none ∨
      runOne t (wrapCancelFunc fn) = some "timeout") ∧
    (ch.sendTime = none → runOne t (wrapQuitChan ch) = some "timeout") := by
  refine ⟨rfl, rfl, runOne_of_result_none t _ rfl,
    runOne_of_result_none t _ rfl, fun h => runOne_of_duration_none t _ h⟩

theorem tears_quit_cancel_nil_witness :
    runOne 3 (wrapQuitChan ⟨none⟩) = some "timeout" :=
  (tears_quit_cancel_nil 3 ⟨none⟩ ⟨some 1⟩).2.2.2.2 rfl

/-- Modelled from the spec: the current implementation of the repository
(the one whose tests call `Tear(...).End()` and `Down(ctx)`) is not among
the sources; only its test file and README are.  Per spec §3, a cleanup
action is the canonical `(context) -> error` callable annotated with an
integer priority. -/
structure SAction where
  fn : CleanupFn
  priority : Int
deriving DecidableEq

/-- Modelled from the spec: the registry of the current implementation, an
ordered sequence of cleanup actions in registration order. -/
abbrev SCleaner := List SAction

/-- Modelled from the spec: the neutral default priority (`0`-equivalent,
"follow natural order"). -/
def defaultPriority : Int := 0

/-- Modelled from the spec: the distinguished low priority meaning "run at
the very end of the sequence, after all default-priority actions". -/
def endPriority : Int := -1

/-- Modelled from the spec: the five recognized input shapes of the current
registration operation (§4.1): a plain procedure, a fallible procedure, a
context-taking procedure, a context-taking fallible procedure, and a
quit-signal channel; anything else is unrecognized.  Each shape carries
its semantic behaviour. -/
inductive SInput where
  | plainProc (duration : Option Nat)
  | fallibleProc (fn : CleanupFn)
  | ctxProc (duration : Option Nat)
  | ctxFallibleProc (fn : CleanupFn)
  | quitChan (ch : QuitChan)
  | unrecognized (typeName : String)
deriving DecidableEq

/-- Modelled from the spec: normalization of a recognized input shape into
the canonical callable (§4.1); procedures that return nothing normalize
to a callable returning a nil error, and registering a quit channel means
delivering a single signal send. -/
def normalizeInput : SInput → Option CleanupFn
  | .plainProc d => some { duration := d, result := none }
  | .fallibleProc fn => some fn
  | .ctxProc d => some { duration := d, result := none }
  | .ctxFallibleProc fn => some fn
  | .quitChan ch => some { duration := ch.sendTime, result := none }
  | .unrecognized _ => none

/-- Modelled from the spec: the current `Tear` (missing from the sources)
appends the normalized action with the default priority and returns
normally; an unrecognized shape aborts the call loudly (second component
carries the abort message) adding nothing. -/
def sTear (c : SCleaner) (v : SInput) : SCleaner × Option String :=
  match normalizeInput v with
  | some fn => (c ++ [{ fn := fn, priority := defaultPriority }], none)
  | none => (c, some "unsupported type")

/-- Modelled from the spec: the `End` mutator of the handle returned by the
current `Tear` (missing from the sources) marks the action it refers to
(here addressed by its registration index) with the distinguished low
priority. -/
def setEnd : SCleaner → Nat → SCleaner
  | [], _ => []
  | a :: as, 0 => { a with priority := endPriority } :: as
  | a :: as, n + 1 => a :: setEnd as n

/-- Modelled from the spec: one insertion step of the stable sort by
priority ascending used by the current `Down` (§4.2 step 1); an action is
placed before the first strictly-lower-priority position, so actions of
equal priority keep their relative registration order. -/
def insertByPriority (a : SAction) : List SAction → List SAction
  | [] => [a]
  | b :: bs =>
      if a.priority ≤ b.priority then a :: b :: bs
      else b :: insertByPriority a bs

/-- Modelled from the spec: the stable sort of the action sequence by
priority ascending (§4.2 step 1). -/
def sortByPriority : List SAction → List SAction
  | [] => []
  | a :: as => insertByPriority a (sortByPriority as)

/-- Modelled from the spec: the execution order of the current `Down`
(§4.2 steps 1-2): stable-sort by priority ascending, then walk the
sorted sequence from the last element to the first. -/
def sRunOrder (c : SCleaner) : List SAction :=
  (sortByPriority c).reverse

example :
    sRunOrder (setEnd [⟨⟨some 0, none⟩, defaultPriority⟩,
      ⟨⟨some 1, none⟩, defaultPriority⟩] 1) =
    [⟨⟨some 0, none⟩, defaultPriority⟩, ⟨⟨some 1, none⟩, endPriority⟩] := by
  decide

lemma insertByPriority_skip (a b : SAction) (bs : List SAction)
    (h : ¬ a.priority ≤ b.priority) :
    insertByPriority a (b :: bs) = b :: insertByPriority a bs := by
  simp [insertByPriority, h]

lemma insertByPriority_front (a : SAction) :
    ∀ l : List SAction, (∀ b ∈ l, a.priority ≤ b.priority) →
      insertByPriority a l = a :: l
  | [], _ => rfl
  | b :: bs, h => by
      simp [insertByPriority, h b (List.mem_cons_self _ _)]

lemma insertByPriority_append (a : SAction) :
    ∀ (l1 l2 : List SAction), (∀ b ∈ l1, ¬ a.priority ≤ b.priority) →
      insertByPriority a (l1 ++ l2) = l1 ++ insertByPriority a l2
  | [], _, _ => rfl
  | b :: bs, l2, h => by
      rw [List.cons_append,
        insertByPriority_skip a b _ (h b (List.mem_cons_self _ _)),
        insertByPriority_append a bs l2
          (fun x hx => h x (List.mem_cons_of_mem _ hx)),
        List.cons_append]

lemma sortByPriority_split :
    ∀ c : List SAction,
      (∀ a ∈ c, a.priority = defaultPriority ∨ a.priority = endPriority) →
      sortByPriority c =
        c.filter (fun a => decide (a.priority = endPriority)) ++
        c.filter (fun a => decide (a.priority = defaultPriority))
  | [], _ => rfl
  | a :: as, h => by
      have has : ∀ b ∈ as,
          b.priority = defaultPriority ∨ b.priority = endPriority :=
        fun b hb => h b (List.mem_cons_of_mem _ hb)
      have ih := sortByPriority_split as has
      have hend : ∀ b ∈ as.filter (fun x => decide (x.priority = endPriority)),
          b.priority = endPriority := by
        intro b hb
        simpa using (List.mem_filter.mp hb).2
      have hdef : ∀ b ∈ as.filter
          (fun x => decide (x.priority = defaultPriority)),
          b.priority = defaultPriority := by
        intro b hb
        simpa using (List.mem_filter.mp hb).2
      rcases h a (List.mem_cons_self _ _) with ha | ha
      · have hskip : ∀ b ∈ as.filter
            (fun x => decide (x.priority = endPriority)),
            ¬ a.priority ≤ b.priority := by
          intro b hb
          rw [ha, hend b hb]
          decide
        have hfront : ∀ b ∈ as.filter
            (fun x => decide (x.priority = defaultPriority)),
            a.priority ≤ b.priority := by
          intro b hb
          rw [ha, hdef b hb]
        simp only [sortByPriority]
        rw [ih, insertByPriority_append a _ _ hskip,
          insertByPriority_front a _ hfront]
        simp [List.filter_cons, ha, defaultPriority, endPriority]
      · have hfront : ∀ b ∈ as.filter
            (fun x => decide (x.priority = endPriority)) ++ as.filter
            (fun x => decide (x.priority = defaultPriority)),
            a.priority ≤ b.priority := by
          intro b hb
          rcases List.mem_append.mp hb with hb1 | hb2
          · rw [ha, hend b hb1]
          · rw [ha, hdef b hb2]
            decide
        simp only [sortByPriority]
        rw [ih, insertByPriority_front a _ hfront]
        simp [List.filter_cons, ha, defaultPriority, endPriority]

/-- Claim C7: the current registration operation accepts every one of the
five recognized input shapes without error — in particular a procedure
taking the execution context and returning nothing, and a procedure
taking the context and able to fail — and registers each as one appended
action with the default priority. -/
theorem tears_spec_tear_accepts_shapes (c : SCleaner) (d1 d2 : Option Nat)
    (fn1 fn2 : CleanupFn) (ch : QuitChan) :
    sTear c (SInput.plainProc d1) =
      (c ++ [{ fn := { duration := d1, result := none },
               priority := defaultPriority }], none) ∧
    sTear c (SInput.fallibleProc fn1) =
      (c ++ [{ fn := fn1, priority := defaultPriority }], none) ∧
    sTear c (SInput.ctxProc d2) =
      (c ++ [{ fn := { duration := d2, result := none },
               priority := defaultPriority }], none) ∧
    sTear c (SInput.ctxFallibleProc fn2) =
      (c ++ [{ fn := fn2, priority := defaultPriority }], none) ∧
    sTear c (SInput.quitChan ch) =
      (c ++ [{ fn := { duration := ch.sendTime, result := none },
               priority := defaultPriority }], none) :=
  ⟨rfl, rfl, rfl, rfl, rfl⟩

/-- Claim C8: in the current implementation, when every action has the
default priority or was marked "run last" via the handle's single `End`
mutator, the execution order is: all default-priority actions in reverse
registration order first, then all "run last" actions in reverse
registration order among themselves — so a "run last" action executes
after every default-priority action regardless of registration position,
and the stable sort keeps the relative order within each class. -/
theorem tears_run_last_ordering (c : SCleaner)
    (h : ∀ a ∈ c, a.priority = defaultPriority ∨ a.priority = endPriority) :
    sRunOrder c =
      (c.filter (fun a => decide (a.priority = defaultPriority))).reverse ++
      (c.filter (fun a => decide (a.priority = endPriority))).reverse := by
  unfold sRunOrder
  rw [sortByPriority_split c h, List.reverse_append]

theorem tears_run_last_ordering_witness :
    (∀ a ∈ setEnd [⟨⟨some 0, none⟩, defaultPriority⟩,
      ⟨⟨some 1, none⟩, defaultPriority⟩] 1,
      a.priority = defaultPriority ∨ a.priority = endPriority) ∧
    sRunOrder (setEnd [⟨⟨some 0, none⟩, defaultPriority⟩,
      ⟨⟨some 1, none⟩, defaultPriority⟩] 1) =
      ((setEnd [⟨⟨some 0, none⟩, defaultPriority⟩,
        ⟨⟨some 1, none⟩, defaultPriority⟩] 1).filter
        (fun a => decide (a.priority = defaultPriority))).reverse ++
      ((setEnd [⟨⟨some 0, none⟩, defaultPriority⟩,
        ⟨⟨some 1, none⟩, defaultPriority⟩] 1).filter
        (fun a => decide (a.priority = endPriority))).reverse :=
  ⟨by decide, tears_run_last_ordering
    (setEnd [⟨⟨some 0, none⟩, defaultPriority⟩,
      ⟨⟨some 1, none⟩, defaultPriority⟩] 1) (by decide)⟩
